import Mathlib

/-!
# Journey State Tracker — shallow embedding of `kidmate-backend`

This file embeds the journey state-tracking core of `src/app.py` (the
`update_status`, `get_status`, `record_departure` and `create_journey`
handlers together with the `PickupJourney` table from `src/models.py`) and
proves properties of the transition logic.

Statuses are strings, exactly as in the Python source.  The database is an
append-only list of `PickupJourney` rows together with a server clock used
to assign `timestamp` values (the SQL `current_timestamp` default); the
clock advances on every insert, so timestamps are strictly increasing in
insertion order in a well-formed database (`WF`).
-/

namespace KidMate

/-- One row of the `PickupJourney` table (`src/models.py`).  The
auto-increment primary key is not modelled (no handler reads it);
`timestamp` is the server-assigned insert time. -/
structure PickupJourney where
  pickup_id : String
  parent_id : String
  child_id : String
  pickup_person_id : String
  status : String
  dropoff_location : String
  dropoff_latitude : Option Int
  dropoff_longitude : Option Int
  timestamp : Nat
deriving DecidableEq, Repr

/-- The database: the rows of the `PickupJourney` table in insertion order,
plus the server clock that stamps the next insert. -/
structure DB where
  rows : List PickupJourney
  now : Nat
deriving DecidableEq, Repr

def emptyDB : DB := ⟨[], 0⟩

/-- `INSERT` of one row followed by `commit`; the row is stamped by the
caller with `db.now` and the clock advances. -/
def commitRow (db : DB) (j : PickupJourney) : DB :=
  ⟨db.rows ++ [j], db.now + 1⟩

/-- `PickupJourney.query.filter_by(pickup_id=pid)` in insertion order. -/
def eventsFor (db : DB) (pid : String) : List PickupJourney :=
  db.rows.filter (fun e => e.pickup_id = pid)

/-- Fold step realising `ORDER BY timestamp DESC … first()`: keep the row
with the largest timestamp, a later row winning ties. -/
def maxByTs (acc : Option PickupJourney) (e : PickupJourney) : Option PickupJourney :=
  match acc with
  | none => some e
  | some b => if b.timestamp ≤ e.timestamp then some e else some b

/-- `PickupJourney.query.filter_by(pickup_id=pid).order_by(timestamp.desc()).first()`. -/
def latestEntry (db : DB) (pid : String) : Option PickupJourney :=
  (eventsFor db pid).foldl maxByTs none

/-- The status sequence recorded for a key, in insertion order; this is the
spec's `history` operation read down to statuses. -/
def statusesFor (db : DB) (pid : String) : List String :=
  (eventsFor db pid).map (fun e => e.status)

/-- The spec's `history(journeyKey)`: all events for a key in chronological
(= insertion, for a well-formed database) order. -/
def history (db : DB) (pid : String) : List PickupJourney :=
  eventsFor db pid

/-- Well-formedness maintained by the server: timestamps strictly increase
in insertion order and are all below the clock. -/
def WF (db : DB) : Prop :=
  db.rows.Pairwise (fun a b => a.timestamp < b.timestamp) ∧
    ∀ e ∈ db.rows, e.timestamp < db.now

/-- `SEQUENTIAL_STATUS_FLOW` from `src/app.py`: the module-level dict
mapping a current status (`None` for a journey with no events) to the one
legal next status; `.get` on a missing key yields `none`. -/
def SEQUENTIAL_STATUS_FLOW (previous_status : Option String) : Option String :=
  match previous_status with
  | none => some "pending"
  | some s =>
    if s = "pending" then some "departed"
    else if s = "departed" then some "picked"
    else if s = "picked" then some "arrived"
    else if s = "arrived" then some "completed"
    else none

/-- `FINAL_STATUSES` from `src/app.py`. -/
def FINAL_STATUSES : List String := ["completed", "cancelled"]

/-- Results of the `/update_status` handler, one constructor per `return`
site: 400 "Missing pickup_id or status", 400 "Cannot cancel a completed
journey", 400 "Cannot update status after journey is {prev}", 400 "Invalid
status transition. Current: {current}, expected: {expected}, received:
{received}", 404 "Journey not found", and the 200 success message. -/
inductive UpdateResult where
  | missingFields
  | cannotCancelCompleted
  | finalized (prev : String)
  | illegalTransition (current : String) (expected : Option String) (received : String)
  | journeyNotFound
  | ok (newStatus : String)
deriving DecidableEq, Repr

def UpdateResult.isOk : UpdateResult → Bool
  | .ok _ => true
  | _ => false

/-- The `IllegalTransition` family of rejections: the three guard errors of
`update_status` (cancel-of-completed, finalized, and table mismatch). -/
def UpdateResult.isIllegal : UpdateResult → Bool
  | .cannotCancelCompleted => true
  | .finalized _ => true
  | .illegalTransition _ _ _ => true
  | _ => false

/-- The `if new_status == 'cancelled' / elif … in FINAL_STATUSES / elif
SEQUENTIAL_STATUS_FLOW.get(previous_status) != new_status` chain of
`update_status`; `some err` means the corresponding `return`, `none` means
fall through to the append. -/
def transitionGuard (previous_status : Option String) (new_status : String) :
    Option UpdateResult :=
  if new_status = "cancelled" then
    if previous_status = some "completed" then some .cannotCancelCompleted
    else none
  else if previous_status.getD "" ∈ FINAL_STATUSES then
    some (.finalized (previous_status.getD ""))
  else if SEQUENTIAL_STATUS_FLOW previous_status ≠ some new_status then
    some (.illegalTransition (previous_status.getD "none")
      (SEQUENTIAL_STATUS_FLOW previous_status) new_status)
  else none

/-- The JSON body of an `/update_status` request: `none` for an absent key
(the handler checks key presence, not truthiness). -/
structure UpdateRequest where
  pickup_id : Option String
  status : Option String
deriving DecidableEq, Repr

/-- Observable side effects of `update_status`: the committed insert and
the notification attempt (whose failure is swallowed by the handler). -/
inductive Action where
  | commit (j : PickupJourney)
  | notify (delivered : Bool)
deriving DecidableEq, Repr

structure UpdateOutcome where
  result : UpdateResult
  db : DB
  actions : List Action
deriving DecidableEq, Repr

/-- The row appended by `update_status`: the requested status with the
party and dropoff fields copied from `existing` (the `.first()` row for
the key), stamped at insert time. -/
def mkJourney (pickup_id : String) (existing : PickupJourney) (new_status : String)
    (ts : Nat) : PickupJourney :=
  { pickup_id := pickup_id
    parent_id := existing.parent_id
    child_id := existing.child_id
    pickup_person_id := existing.pickup_person_id
    status := new_status
    dropoff_location := existing.dropoff_location
    dropoff_latitude := existing.dropoff_latitude
    dropoff_longitude := existing.dropoff_longitude
    timestamp := ts }

/-- The `/update_status` handler (`src/app.py`).  `emailOk` is whether the
notification dispatch succeeds; the handler swallows its failure.  The
guard chain is `transitionGuard`; past it, the handler looks up
`existing_journey = …filter_by(pickup_id).first()` (404 when absent),
inserts the new row, commits, then attempts the notification and returns
200 regardless. -/
def update_status (db : DB) (req : UpdateRequest) (emailOk : Bool) : UpdateOutcome :=
  match req.pickup_id, req.status with
  | some pickup_id, some new_status =>
    let previous_status := (latestEntry db pickup_id).map (fun e => e.status)
    match transitionGuard previous_status new_status with
    | some err => ⟨err, db, []⟩
    | none =>
      match (eventsFor db pickup_id).head? with
      | none => ⟨.journeyNotFound, db, []⟩
      | some existing =>
        let journey := mkJourney pickup_id existing new_status db.now
        ⟨.ok new_status, commitRow db journey, [.commit journey, .notify emailOk]⟩
  | _, _ => ⟨.missingFields, db, []⟩

/-- Results of the `/get_status` handler. -/
inductive GetStatusResult where
  | missingPickupId
  | statusNone
  | found (status : String) (timestamp : Nat)
deriving DecidableEq, Repr

/-- The `/get_status` handler (`src/app.py`): a pure lookup.  The query
parameter is absent (`none`) or a string; `if not pickup_id` also rejects
the empty string. -/
def get_status (db : DB) (pickup_id : Option String) : GetStatusResult :=
  match pickup_id with
  | none => .missingPickupId
  | some pid =>
    if pid = "" then .missingPickupId
    else
      match latestEntry db pid with
      | none => .statusNone
      | some e => .found e.status e.timestamp

/-- Results of the `/api/record-departure` handler. -/
inductive DepartResult where
  | missingPickupId
  | journeyNotFound
  | notPending
  | ok
deriving DecidableEq, Repr

/-- The `/api/record-departure` handler (`src/app.py`): `data.get('pickup_id')`
then `if not pickup_id` (absent or empty string → 400); 404 when no journey
row exists; 400 unless the latest status is `pending`; otherwise a new row
with status `departed` is inserted, copying the latest row's fields. -/
def record_departure (db : DB) (pickup_id : Option String) : DepartResult × DB :=
  match pickup_id with
  | none => (.missingPickupId, db)
  | some pid =>
    if pid = "" then (.missingPickupId, db)
    else
      match latestEntry db pid with
      | none => (.journeyNotFound, db)
      | some latest_journey =>
        if latest_journey.status ≠ "pending" then (.notPending, db)
        else
          (.ok, commitRow db (mkJourney pid latest_journey "departed" db.now))

/-- The collaborator tables consulted by `create_journey` (`Parent`, `Kid`,
`PickupPerson` in `src/models.py`), abstracted as lookups: the parent id
for a user email, the owning parent id of a kid, and whether a pickup
person with a given uuid exists. -/
structure Directory where
  parentByEmail : String → Option Nat
  kidParent : Nat → Option Nat
  pickupPersonByUuid : String → Bool

/-- Results of the `/api/create-journey` handler. -/
inductive CreateResult where
  | parentNotFound
  | missingFields
  | childNotFoundOrUnauthorized
  | pickupPersonNotFound
  | ok (pickup_id : String)
deriving DecidableEq, Repr

/-- The `/api/create-journey` handler (`src/app.py`): resolves the parent
from the JWT email, validates the child belongs to that parent and the
pickup person exists, generates a fresh `pickup_id` (a random uuid prefix,
passed here as `fresh_pickup_id`), and inserts the journey's first row
with status `pending`.  `if not pickup_person_id or not child_id` uses
Python truthiness, so an absent/empty uuid or absent/zero child id is
rejected; `float(x) if x else None` likewise drops falsy coordinates. -/
def create_journey (db : DB) (dir : Directory) (current_user_email : String)
    (pickup_person_id : Option String) (child_id : Option Nat)
    (dropoff_location : String) (dropoff_latitude dropoff_longitude : Option Int)
    (fresh_pickup_id : String) : CreateResult × DB :=
  match dir.parentByEmail current_user_email with
  | none => (.parentNotFound, db)
  | some parentId =>
    if pickup_person_id.getD "" = "" ∨ child_id.getD 0 = 0 then
      (.missingFields, db)
    else
      match dir.kidParent (child_id.getD 0) with
      | none => (.childNotFoundOrUnauthorized, db)
      | some kidParentId =>
        if kidParentId ≠ parentId then (.childNotFoundOrUnauthorized, db)
        else if ¬ dir.pickupPersonByUuid (pickup_person_id.getD "") then
          (.pickupPersonNotFound, db)
        else
          let journey : PickupJourney :=
            { pickup_id := fresh_pickup_id
              parent_id := toString parentId
              child_id := toString (child_id.getD 0)
              pickup_person_id := pickup_person_id.getD ""
              status := "pending"
              dropoff_location := dropoff_location
              dropoff_latitude :=
                match dropoff_latitude with
                | some v => if v = 0 then none else some v
                | none => none
              dropoff_longitude :=
                match dropoff_longitude with
                | some v => if v = 0 then none else some v
                | none => none
              timestamp := db.now }
          (.ok fresh_pickup_id, commitRow db journey)

/-- The operations of the repository that touch the `PickupJourney` table. -/
inductive Op where
  | update (req : UpdateRequest) (emailOk : Bool)
  | depart (pickup_id : Option String)
  | create (dir : Directory) (email : String) (pickup_person_id : Option String)
      (child_id : Option Nat) (loc : String) (lat lng : Option Int) (fresh : String)

/-- The database produced by running one handler. -/
def applyOp (db : DB) : Op → DB
  | .update req b => (update_status db req b).db
  | .depart pid => (record_departure db pid).2
  | .create dir em pp cid loc lat lng fr =>
    (create_journey db dir em pp cid loc lat lng fr).2

/-- Databases reachable from an empty table by running the handlers. -/
inductive Reachable : DB → Prop
  | init : Reachable emptyDB
  | step {db : DB} (op : Op) : Reachable db → Reachable (applyOp db op)

/-- The five-stage canonical path laid out by `SEQUENTIAL_STATUS_FLOW`. -/
def statusPath : List String := ["pending", "departed", "picked", "arrived", "completed"]

/-- The known status values: the five stages plus `cancelled`. -/
def KNOWN_STATUSES : List String :=
  ["pending", "departed", "picked", "arrived", "completed", "cancelled"]

/-- The spec's history invariant, as stated: the recorded statuses are a
prefix of the canonical path, with `cancelled` allowed as the single final
element appended to a non-terminal (proper) prefix. -/
def SpecValidHistory (l : List String) : Prop :=
  ∃ p, p <+: statusPath ∧ (l = p ∨ (l = p ++ ["cancelled"] ∧ p ≠ statusPath))

/-- The history invariant the code actually maintains: a prefix of the
canonical path followed by zero or more `cancelled` events, the first of
which can only follow a prefix not ending in `completed`. -/
def CodeValidHistory (l : List String) : Prop :=
  ∃ p n, p <+: statusPath ∧ (n = 0 ∨ p ≠ statusPath) ∧
    l = p ++ List.replicate n "cancelled"

/-! ## Concrete fixtures used by witnesses and counterexamples -/

/-- A journey row with fixed party/dropoff data, for building fixtures. -/
def ev (pid st : String) (ts : Nat) : PickupJourney :=
  ⟨pid, "p1", "c1", "e1", st, "loc", none, none, ts⟩

def dbPending : DB := ⟨[ev "K1" "pending" 0], 1⟩

def dbPicked : DB :=
  ⟨[ev "K1" "pending" 0, ev "K1" "departed" 1, ev "K1" "picked" 2], 3⟩

def dbCancelled : DB := ⟨[ev "K1" "pending" 0, ev "K1" "cancelled" 1], 2⟩

def dbCompleted : DB :=
  ⟨[ev "K1" "pending" 0, ev "K1" "departed" 1, ev "K1" "picked" 2,
    ev "K1" "arrived" 3, ev "K1" "completed" 4], 5⟩

/-- A one-parent, one-kid, one-pickup-person directory. -/
def demoDir : Directory :=
  ⟨fun e => if e = "p@x" then some 1 else none,
   fun c => if c = 5 then some 1 else none,
   fun u => u = "uu"⟩

/-- The database obtained from an empty table by `create_journey` followed
by two accepted `cancelled` submissions for the same key. -/
def dbTwiceCancelled : DB :=
  let d1 := (create_journey emptyDB demoDir "p@x" (some "uu") (some 5) ""
    none none "K1").2
  let d2 := (update_status d1 ⟨some "K1", some "cancelled"⟩ true).db
  (update_status d2 ⟨some "K1", some "cancelled"⟩ true).db

/-! ## Helper lemmas on queries -/

theorem eventsFor_commitRow (db : DB) (j : PickupJourney) (pid : String) :
    eventsFor (commitRow db j) pid =
      eventsFor db pid ++ (if j.pickup_id = pid then [j] else []) := by
  simp only [eventsFor, commitRow, List.filter_append]
  by_cases h : j.pickup_id = pid <;> simp [h]

theorem foldl_maxByTs_mem :
    ∀ (l : List PickupJourney) (acc : Option PickupJourney) (e : PickupJourney),
      l.foldl maxByTs acc = some e → acc = some e ∨ e ∈ l := by
  intro l
  induction l with
  | nil => intro acc e h; exact Or.inl h
  | cons x xs ih =>
    intro acc e h
    simp only [List.foldl_cons] at h
    rcases ih (maxByTs acc x) e h with h1 | h1
    · unfold maxByTs at h1
      match acc, h1 with
      | none, h1 => exact Or.inr (by simp_all)
      | some b, h1 =>
        by_cases hb : b.timestamp ≤ x.timestamp
        · simp [hb] at h1; exact Or.inr (by simp_all)
        · simp [hb] at h1; exact Or.inl (by simp_all)
    · exact Or.inr (List.mem_cons_of_mem _ h1)

theorem foldl_maxByTs_isSome (l : List PickupJourney) (acc : Option PickupJourney) :
    (l.foldl maxByTs acc).isSome = (acc.isSome || !l.isEmpty) := by
  induction l generalizing acc with
  | nil => simp
  | cons x xs ih =>
    simp only [List.foldl_cons, ih]
    unfold maxByTs
    match acc with
    | none => simp
    | some b => by_cases hb : b.timestamp ≤ x.timestamp <;> simp [hb]

theorem latestEntry_eq_none_iff (db : DB) (pid : String) :
    latestEntry db pid = none ↔ eventsFor db pid = [] := by
  have h := foldl_maxByTs_isSome (eventsFor db pid) none
  unfold latestEntry
  constructor
  · intro hn
    rw [hn] at h
    simpa using h.symm
  · intro he
    rw [he]
    rfl

theorem latestEntry_mem {db : DB} {pid : String} {e : PickupJourney}
    (h : latestEntry db pid = some e) : e ∈ eventsFor db pid := by
  rcases foldl_maxByTs_mem _ _ _ h with h1 | h1
  · cases h1
  · exact h1

theorem foldl_maxByTs_last (l : List PickupJourney) (e : PickupJourney)
    (h : ∀ x ∈ l, x.timestamp ≤ e.timestamp) :
    (l ++ [e]).foldl maxByTs none = some e := by
  rw [List.foldl_append]
  simp only [List.foldl_cons, List.foldl_nil]
  match hm : l.foldl maxByTs none with
  | none => rfl
  | some b =>
    rcases foldl_maxByTs_mem _ _ _ hm with h1 | h1
    · cases h1
    · unfold maxByTs
      simp [h b h1]

theorem foldl_maxByTs_pairwise (l : List PickupJourney)
    (h : l.Pairwise (fun a b => a.timestamp < b.timestamp)) :
    l.foldl maxByTs none = l.getLast? := by
  induction l using List.reverseRecOn with
  | nil => rfl
  | append_singleton xs e ih =>
    rw [List.pairwise_append] at h
    rw [foldl_maxByTs_last xs e (fun x hx => le_of_lt (h.2.2 x hx e (by simp)))]
    simp

/-- In a well-formed database the latest-by-timestamp row for a key is the
last inserted row for that key. -/
theorem latestEntry_eq_getLast {db : DB} (hwf : WF db) (pid : String) :
    latestEntry db pid = (eventsFor db pid).getLast? := by
  unfold latestEntry
  exact foldl_maxByTs_pairwise _ (hwf.1.sublist (List.filter_sublist _))

theorem getLast?_map_status (l : List PickupJourney) :
    (l.map (fun e => e.status)).getLast? = l.getLast?.map (fun e => e.status) := by
  simp [List.getLast?_map]

/-- In a well-formed database the spec's "current status" is the last
recorded status for the key. -/
theorem currentStatus_eq_last {db : DB} (hwf : WF db) (pid : String) :
    (latestEntry db pid).map (fun e => e.status) = (statusesFor db pid).getLast? := by
  rw [latestEntry_eq_getLast hwf, statusesFor, getLast?_map_status]

theorem WF_commitRow {db : DB} (hwf : WF db) {j : PickupJourney}
    (hts : j.timestamp = db.now) : WF (commitRow db j) := by
  constructor
  · rw [commitRow, List.pairwise_append]
    exact ⟨hwf.1, by simp, fun a ha b hb => by
      simp only [List.mem_singleton] at hb
      subst hb
      rw [hts]
      exact hwf.2 a ha⟩
  · intro e he
    rw [commitRow] at he
    simp only [List.mem_append, List.mem_singleton] at he
    rcases he with he | he
    · exact Nat.lt_succ_of_lt (hwf.2 e he)
    · subst he; rw [hts]; exact Nat.lt_succ_self _

/-! ## Case analysis of the handlers -/

/-- Exhaustive description of what `update_status` does on a well-formed
request: a guard rejection, a 404 on a key with no rows, or the append. -/
theorem update_status_cases (db : DB) (pid s : String) (b : Bool) :
    (∃ err, transitionGuard ((latestEntry db pid).map (fun e => e.status)) s = some err ∧
      update_status db ⟨some pid, some s⟩ b = ⟨err, db, []⟩) ∨
    (transitionGuard ((latestEntry db pid).map (fun e => e.status)) s = none ∧
      (eventsFor db pid).head? = none ∧
      update_status db ⟨some pid, some s⟩ b = ⟨.journeyNotFound, db, []⟩) ∨
    (∃ ex, transitionGuard ((latestEntry db pid).map (fun e => e.status)) s = none ∧
      (eventsFor db pid).head? = some ex ∧
      update_status db ⟨some pid, some s⟩ b =
        ⟨.ok s, commitRow db (mkJourney pid ex s db.now),
          [.commit (mkJourney pid ex s db.now), .notify b]⟩) := by
  rcases hg : transitionGuard ((latestEntry db pid).map (fun e => e.status)) s with _ | err
  · rcases hh : (eventsFor db pid).head? with _ | ex
    · exact Or.inr (Or.inl ⟨hg, rfl, by simp only [update_status, hg, hh]⟩)
    · exact Or.inr (Or.inr ⟨ex, hg, rfl, by simp only [update_status, hg, hh]⟩)
  · exact Or.inl ⟨err, hg, by simp only [update_status, hg]⟩

/-- When the guard fires, nothing is written and no action is taken. -/
theorem update_status_guard_some {db : DB} {pid s : String} (b : Bool) {err : UpdateResult}
    (h : transitionGuard ((latestEntry db pid).map (fun e => e.status)) s = some err) :
    update_status db ⟨some pid, some s⟩ b = ⟨err, db, []⟩ := by
  unfold update_status
  simp only [h]

/-- The guard falls through exactly for a cancellation of a non-completed
journey or for the table's single legal next status of a non-final one. -/
theorem transitionGuard_eq_none_iff (prev : Option String) (s : String) :
    transitionGuard prev s = none ↔
      ((s = "cancelled" ∧ prev ≠ some "completed") ∨
       (s ≠ "cancelled" ∧ prev.getD "" ∉ FINAL_STATUSES ∧
        SEQUENTIAL_STATUS_FLOW prev = some s)) := by
  unfold transitionGuard
  by_cases hc : s = "cancelled"
  · by_cases hp : prev = some "completed" <;> simp [hc, hp]
  · by_cases hf : prev.getD "" ∈ FINAL_STATUSES
    · simp [hc, hf]
    · by_cases hs : SEQUENTIAL_STATUS_FLOW prev = some s <;> simp [hc, hf, hs]

/-- The flow table has no entry outside the four interior keys. -/
theorem flow_other {p : String} (h1 : p ≠ "pending") (h2 : p ≠ "departed")
    (h3 : p ≠ "picked") (h4 : p ≠ "arrived") :
    SEQUENTIAL_STATUS_FLOW (some p) = none := by
  unfold SEQUENTIAL_STATUS_FLOW
  simp [h1, h2, h3, h4]

/-- The flow table is only defined on the non-terminal statuses. -/
theorem flow_some_prev {prev : Option String} {v : String}
    (h : SEQUENTIAL_STATUS_FLOW prev = some v) :
    prev = none ∨ prev = some "pending" ∨ prev = some "departed" ∨
      prev = some "picked" ∨ prev = some "arrived" := by
  rcases prev with _ | p
  · exact Or.inl rfl
  · by_cases h1 : p = "pending"
    · subst h1; exact Or.inr (Or.inl rfl)
    · by_cases h2 : p = "departed"
      · subst h2; exact Or.inr (Or.inr (Or.inl rfl))
      · by_cases h3 : p = "picked"
        · subst h3; exact Or.inr (Or.inr (Or.inr (Or.inl rfl)))
        · by_cases h4 : p = "arrived"
          · subst h4; exact Or.inr (Or.inr (Or.inr (Or.inr rfl)))
          · rw [flow_other h1 h2 h3 h4] at h; cases h

/-- Every value of the flow table is one of the five stage statuses. -/
theorem flow_some_val {prev : Option String} {v : String}
    (h : SEQUENTIAL_STATUS_FLOW prev = some v) :
    v = "pending" ∨ v = "departed" ∨ v = "picked" ∨ v = "arrived" ∨ v = "completed" := by
  rcases flow_some_prev h with h1 | h1 | h1 | h1 | h1 <;> subst h1
  · rw [(by decide : SEQUENTIAL_STATUS_FLOW none = some "pending"),
      Option.some.injEq] at h
    exact Or.inl h.symm
  · rw [(by decide : SEQUENTIAL_STATUS_FLOW (some "pending") = some "departed"),
      Option.some.injEq] at h
    exact Or.inr (Or.inl h.symm)
  · rw [(by decide : SEQUENTIAL_STATUS_FLOW (some "departed") = some "picked"),
      Option.some.injEq] at h
    exact Or.inr (Or.inr (Or.inl h.symm))
  · rw [(by decide : SEQUENTIAL_STATUS_FLOW (some "picked") = some "arrived"),
      Option.some.injEq] at h
    exact Or.inr (Or.inr (Or.inr (Or.inl h.symm)))
  · rw [(by decide : SEQUENTIAL_STATUS_FLOW (some "arrived") = some "completed"),
      Option.some.injEq] at h
    exact Or.inr (Or.inr (Or.inr (Or.inr h.symm)))

theorem foldl_maxByTs_acc_le :
    ∀ (l : List PickupJourney) (b e : PickupJourney),
      l.foldl maxByTs (some b) = some e → b.timestamp ≤ e.timestamp := by
  intro l
  induction l with
  | nil =>
    intro b e h
    simp only [List.foldl_nil, Option.some.injEq] at h
    rw [h]
  | cons x xs ih =>
    intro b e h
    simp only [List.foldl_cons, maxByTs] at h
    by_cases hb : b.timestamp ≤ x.timestamp
    · rw [if_pos hb] at h
      exact le_trans hb (ih x e h)
    · rw [if_neg hb] at h
      exact ih b e h

theorem foldl_maxByTs_max :
    ∀ (l : List PickupJourney) (acc : Option PickupJourney) (e : PickupJourney),
      l.foldl maxByTs acc = some e → ∀ x ∈ l, x.timestamp ≤ e.timestamp := by
  intro l
  induction l with
  | nil => intro acc e _ x hx; cases hx
  | cons y ys ih =>
    intro acc e h x hx
    simp only [List.foldl_cons] at h
    rcases List.mem_cons.mp hx with hx | hx
    · subst hx
      have hstep : ∃ c, maxByTs acc x = some c ∧ x.timestamp ≤ c.timestamp := by
        match acc with
        | none => exact ⟨x, rfl, le_refl _⟩
        | some b =>
          by_cases hb : b.timestamp ≤ x.timestamp
          · exact ⟨x, by simp only [maxByTs, if_pos hb], le_refl _⟩
          · exact ⟨b, by simp only [maxByTs, if_neg hb], le_of_lt (lt_of_not_le hb)⟩
      obtain ⟨c, hc, hxc⟩ := hstep
      rw [hc] at h
      exact le_trans hxc (foldl_maxByTs_acc_le ys c e h)
    · exact ih (maxByTs acc y) e h x hx

/-- Any row returned by `latestEntry` has the maximal timestamp for its key. -/
theorem latestEntry_max {db : DB} {pid : String} {e : PickupJourney}
    (h : latestEntry db pid = some e) :
    ∀ x ∈ eventsFor db pid, x.timestamp ≤ e.timestamp :=
  foldl_maxByTs_max _ none e h

/-- Appending a row stamped at or above every existing timestamp for its key
makes it the latest row for that key. -/
theorem latestEntry_commit_self {db : DB} {j : PickupJourney} {pid : String}
    (hpid : j.pickup_id = pid)
    (hts : ∀ x ∈ eventsFor db pid, x.timestamp ≤ j.timestamp) :
    latestEntry (commitRow db j) pid = some j := by
  unfold latestEntry
  rw [eventsFor_commitRow, if_pos hpid]
  exact foldl_maxByTs_last _ _ hts

/-- In a well-formed database every stored row for a key is stamped below
the clock, hence at or below a fresh row stamped `db.now`. -/
theorem eventsFor_ts_le_now {db : DB} (hwf : WF db) (pid : String) :
    ∀ x ∈ eventsFor db pid, x.timestamp ≤ db.now := by
  intro x hx
  exact le_of_lt (hwf.2 x (List.mem_of_mem_filter hx))

/-- The guard never produces a success result. -/
theorem transitionGuard_isOk {p : Option String} {s : String} {err : UpdateResult}
    (h : transitionGuard p s = some err) : err.isOk = false := by
  unfold transitionGuard at h
  split at h
  · split at h
    · cases h; rfl
    · cases h
  · split at h
    · cases h; rfl
    · split at h
      · cases h; rfl
      · cases h

/-- Every guard rejection is in the `IllegalTransition` family. -/
theorem transitionGuard_isIllegal {p : Option String} {s : String} {err : UpdateResult}
    (h : transitionGuard p s = some err) : err.isIllegal = true := by
  unfold transitionGuard at h
  split at h
  · split at h
    · cases h; rfl
    · cases h
  · split at h
    · cases h; rfl
    · split at h
      · cases h; rfl
      · cases h

theorem guard_cancel_of_completed :
    transitionGuard (some "completed") "cancelled" = some .cannotCancelCompleted := by
  decide

theorem guard_final_noncancel {p r : String} (hp : p ∈ FINAL_STATUSES)
    (hr : r ≠ "cancelled") :
    transitionGuard (some p) r = some (.finalized p) := by
  unfold transitionGuard
  rw [if_neg hr]
  simp only [Option.getD_some]
  rw [if_pos hp]

/-! ## Claim theorems -/

/-- C1: for every journey key and every requested status other than
`cancelled`, when the transition table has an entry for the journey's
current status and that entry differs from the requested status,
`update_status` rejects with the illegal-transition error, reporting the
one legal next status, writing nothing and taking no action. -/
theorem C1_illegal_transition_rejected (db : DB) (pid r expected : String) (b : Bool)
    (hr : r ≠ "cancelled")
    (hflow : SEQUENTIAL_STATUS_FLOW ((latestEntry db pid).map (fun e => e.status)) =
      some expected)
    (hne : expected ≠ r) :
    update_status db ⟨some pid, some r⟩ b =
      ⟨.illegalTransition (((latestEntry db pid).map (fun e => e.status)).getD "none")
        (some expected) r, db, []⟩ := by
  apply update_status_guard_some
  have hfin : ((latestEntry db pid).map (fun e => e.status)).getD "" ∉ FINAL_STATUSES := by
    rcases flow_some_prev hflow with h1 | h1 | h1 | h1 | h1 <;> rw [h1] <;> decide
  unfold transitionGuard
  rw [if_neg hr, if_neg hfin, hflow]
  have hne2 : (some expected : Option String) ≠ some r := by
    simpa using hne
  rw [if_pos hne2]

/-- Witness for C1: scenario B's third step, a key at `picked` submitted
`completed` directly, is rejected reporting expected next `arrived`. -/
theorem C1_witness :
    update_status dbPicked ⟨some "K1", some "completed"⟩ true =
      ⟨.illegalTransition "picked" (some "arrived") "completed", dbPicked, []⟩ :=
  C1_illegal_transition_rejected dbPicked "K1" "completed" "arrived" true
    (by decide) (by decide) (by decide)

/-- C5: a rejection from the `IllegalTransition` family is error-atomic and
idempotent: the database is unchanged, no action (insert or notification)
is taken, and resubmitting the same pair gives the identical outcome. -/
theorem C5_rejection_idempotent (db : DB) (req : UpdateRequest) (b b' : Bool)
    (h : (update_status db req b).result.isIllegal = true) :
    (update_status db req b).db = db ∧ (update_status db req b).actions = [] ∧
      update_status db req b' = update_status db req b := by
  rcases req with ⟨pid?, s?⟩
  match pid?, s? with
  | none, none => simp only [update_status] at h; cases h
  | none, some s => simp only [update_status] at h; cases h
  | some pid, none => simp only [update_status] at h; cases h
  | some pid, some s =>
    rcases update_status_cases db pid s b with ⟨err, hg, hu⟩ | ⟨hg, hh, hu⟩ | ⟨ex, hg, hh, hu⟩
    · rw [hu]
      exact ⟨rfl, rfl, update_status_guard_some b' hg⟩
    · rw [hu] at h; cases h
    · rw [hu] at h; cases h

/-- Witness for C5: a key at `pending` submitted `arrived` is rejected,
the store is untouched, and resubmission is identical. -/
theorem C5_witness :
    (update_status dbPending ⟨some "K1", some "arrived"⟩ true).db = dbPending ∧
      (update_status dbPending ⟨some "K1", some "arrived"⟩ true).actions = [] ∧
      update_status dbPending ⟨some "K1", some "arrived"⟩ false =
        update_status dbPending ⟨some "K1", some "arrived"⟩ true :=
  C5_rejection_idempotent dbPending ⟨some "K1", some "arrived"⟩ true false (by decide)

/-- C6: `get_status` is a pure lookup: on a key with no events it answers
`status: none` (and `history` is empty); otherwise it answers the status
and timestamp of the stored event with the maximal `recorded_at`. -/
theorem C6_get_status_pure_lookup (db : DB) (pid : String) (hpid : pid ≠ "") :
    (eventsFor db pid = [] →
      get_status db (some pid) = .statusNone ∧ history db pid = []) ∧
    (∀ e, latestEntry db pid = some e →
      get_status db (some pid) = .found e.status e.timestamp ∧
      e ∈ history db pid ∧ ∀ x ∈ history db pid, x.timestamp ≤ e.timestamp) := by
  constructor
  · intro he
    have hl : latestEntry db pid = none := (latestEntry_eq_none_iff db pid).2 he
    refine ⟨?_, he⟩
    simp only [get_status, if_neg hpid, hl]
  · intro e he
    refine ⟨?_, latestEntry_mem he, latestEntry_max he⟩
    simp only [get_status, if_neg hpid, he]

/-- Witness for C6: on `dbPicked` the latest event is reported; on a
never-used key the answer is `status: none` with empty history. -/
theorem C6_witness :
    (get_status dbPicked (some "K1") = .found "picked" 2) ∧
      (get_status emptyDB (some "ZZ") = .statusNone ∧ history emptyDB "ZZ" = []) :=
  ⟨((C6_get_status_pure_lookup dbPicked "K1" (by decide)).2
      (ev "K1" "picked" 2) (by decide)).1,
   (C6_get_status_pure_lookup emptyDB "ZZ" (by decide)).1 (by decide)⟩

/-- C7: for every accepted transition the outcome is independent of whether
the notification dispatch succeeds, and the event is committed before the
single notification attempt; the caller sees success either way. -/
theorem C7_notification_failure_harmless (db : DB) (req : UpdateRequest) (b : Bool)
    (s : String) (h : (update_status db req b).result = .ok s) :
    (update_status db req true).result = .ok s ∧
    (update_status db req false).result = .ok s ∧
    (update_status db req true).db = (update_status db req b).db ∧
    (update_status db req false).db = (update_status db req b).db ∧
    ∃ j, (update_status db req b).db.rows = db.rows ++ [j] ∧
      (update_status db req b).actions = [.commit j, .notify b] := by
  rcases req with ⟨pid?, s?⟩
  match pid?, s? with
  | none, none => simp only [update_status] at h; cases h
  | none, some s' => simp only [update_status] at h; cases h
  | some pid, none => simp only [update_status] at h; cases h
  | some pid, some s' =>
    rcases update_status_cases db pid s' b with ⟨err, hg, hu⟩ | ⟨hg, hh, hu⟩ | ⟨ex, hg, hh, hu⟩
    · rw [hu] at h
      have herr : err = .ok s := h
      subst herr
      exact Bool.noConfusion (transitionGuard_isOk hg)
    · rw [hu] at h; cases h
    · have hs : s' = s := by
        rw [hu] at h
        exact (UpdateResult.ok.inj h).symm ▸ rfl
      subst hs
      have hu1 : update_status db ⟨some pid, some s'⟩ true =
          ⟨.ok s', commitRow db (mkJourney pid ex s' db.now),
            [.commit (mkJourney pid ex s' db.now), .notify true]⟩ := by
        simp only [update_status, hg, hh]
      have hu0 : update_status db ⟨some pid, some s'⟩ false =
          ⟨.ok s', commitRow db (mkJourney pid ex s' db.now),
            [.commit (mkJourney pid ex s' db.now), .notify false]⟩ := by
        simp only [update_status, hg, hh]
      refine ⟨by rw [hu1], by rw [hu0], by rw [hu1, hu], by rw [hu0, hu],
        mkJourney pid ex s' db.now, by rw [hu]; rfl, by rw [hu]⟩

/-- Witness for C7: an accepted `pending → departed` transition commits the
row and returns success with the notification marked failed. -/
theorem C7_witness :
    (update_status dbPending ⟨some "K1", some "departed"⟩ true).result = .ok "departed" ∧
    (update_status dbPending ⟨some "K1", some "departed"⟩ false).result = .ok "departed" ∧
    (update_status dbPending ⟨some "K1", some "departed"⟩ true).db =
      (update_status dbPending ⟨some "K1", some "departed"⟩ false).db ∧
    (update_status dbPending ⟨some "K1", some "departed"⟩ false).db =
      (update_status dbPending ⟨some "K1", some "departed"⟩ false).db ∧
    ∃ j, (update_status dbPending ⟨some "K1", some "departed"⟩ false).db.rows =
        dbPending.rows ++ [j] ∧
      (update_status dbPending ⟨some "K1", some "departed"⟩ false).actions =
        [.commit j, .notify false] :=
  C7_notification_failure_harmless dbPending ⟨some "K1", some "departed"⟩ false
    "departed" (by decide)

/-- Counterexample to C2 as stated: on a fresh key, submitting `pending`
does not succeed and the journey does not come to exist — `update_status`
answers 404 `Journey not found` and stores nothing. -/
theorem C2_counterexample :
    update_status emptyDB ⟨some "J1", some "pending"⟩ true =
      ⟨.journeyNotFound, emptyDB, []⟩ ∧
    (update_status emptyDB ⟨some "J1", some "pending"⟩ true).result ≠ .ok "pending" ∧
    eventsFor (update_status emptyDB ⟨some "J1", some "pending"⟩ true).db "J1" = [] := by
  decide

/-- C2 (amended): for a key with no recorded events, submitting `pending`
to `update_status` is rejected with `Journey not found` and nothing is
stored (the first `pending` row is created by `create_journey` instead);
once the key's current status is `pending`, submitting `pending` again is
rejected with `IllegalTransition` reporting expected next `departed`. -/
theorem C2_fresh_key_pending (db : DB) (pid : String) (b : Bool) :
    (eventsFor db pid = [] →
      update_status db ⟨some pid, some "pending"⟩ b = ⟨.journeyNotFound, db, []⟩) ∧
    ((latestEntry db pid).map (fun e => e.status) = some "pending" →
      update_status db ⟨some pid, some "pending"⟩ b =
        ⟨.illegalTransition "pending" (some "departed") "pending", db, []⟩) := by
  constructor
  · intro he
    have hl : latestEntry db pid = none := (latestEntry_eq_none_iff db pid).2 he
    simp only [update_status, hl, he]
    rfl
  · intro hp
    apply update_status_guard_some
    rw [hp]
    decide

/-- Witness for C2 (amended) at both a fresh key and a key at `pending`. -/
theorem C2_witness :
    update_status emptyDB ⟨some "J9", some "pending"⟩ true =
      ⟨.journeyNotFound, emptyDB, []⟩ ∧
    update_status dbPending ⟨some "K1", some "pending"⟩ true =
      ⟨.illegalTransition "pending" (some "departed") "pending", dbPending, []⟩ :=
  ⟨(C2_fresh_key_pending emptyDB "J9" true).1 (by decide),
   (C2_fresh_key_pending dbPending "K1" true).2 (by decide)⟩

/-- Counterexample to C4 as stated: from current status `none` (a current
status other than `completed`) the cancellation is not accepted — it is
rejected with 404 and appends nothing. -/
theorem C4_counterexample :
    update_status emptyDB ⟨some "J2", some "cancelled"⟩ true =
      ⟨.journeyNotFound, emptyDB, []⟩ ∧
    (update_status emptyDB ⟨some "J2", some "cancelled"⟩ true).result.isOk = false := by
  decide

/-- C4 (amended): a requested `cancelled` is rejected with
`IllegalTransition` exactly when current status is `completed`; for a key
with at least one event and any other current status it is accepted,
appending a `cancelled` event; for a key with no events it is rejected
with `Journey not found`. -/
theorem C4_cancellation (db : DB) (pid : String) (b : Bool) :
    ((latestEntry db pid).map (fun e => e.status) = some "completed" →
      update_status db ⟨some pid, some "cancelled"⟩ b = ⟨.cannotCancelCompleted, db, []⟩) ∧
    (eventsFor db pid ≠ [] →
      (latestEntry db pid).map (fun e => e.status) ≠ some "completed" →
      ∃ j, j.status = "cancelled" ∧ j.pickup_id = pid ∧
        update_status db ⟨some pid, some "cancelled"⟩ b =
          ⟨.ok "cancelled", commitRow db j, [.commit j, .notify b]⟩) ∧
    (eventsFor db pid = [] →
      update_status db ⟨some pid, some "cancelled"⟩ b = ⟨.journeyNotFound, db, []⟩) := by
  refine ⟨?_, ?_, ?_⟩
  · intro hp
    apply update_status_guard_some
    rw [hp]
    decide
  · intro hne hnc
    have hg : transitionGuard ((latestEntry db pid).map (fun e => e.status)) "cancelled" =
        none := by
      unfold transitionGuard
      rw [if_pos rfl, if_neg hnc]
    rcases update_status_cases db pid "cancelled" b with
      ⟨err, hg', hu⟩ | ⟨hg', hh, hu⟩ | ⟨ex, hg', hh, hu⟩
    · rw [hg] at hg'; cases hg'
    · rw [List.head?_eq_none_iff] at hh
      exact absurd hh hne
    · exact ⟨mkJourney pid ex "cancelled" db.now, rfl, rfl, hu⟩
  · intro he
    have hl : latestEntry db pid = none := (latestEntry_eq_none_iff db pid).2 he
    simp only [update_status, hl, he]
    rfl

/-- Witness for C4 (amended): cancel-of-completed is rejected; cancel of a
key at `pending` is accepted. -/
theorem C4_witness :
    update_status dbCompleted ⟨some "K1", some "cancelled"⟩ true =
      ⟨.cannotCancelCompleted, dbCompleted, []⟩ ∧
    update_status emptyDB ⟨some "J4", some "cancelled"⟩ true =
      ⟨.journeyNotFound, emptyDB, []⟩ :=
  ⟨(C4_cancellation dbCompleted "K1" true).1 (by decide),
   (C4_cancellation emptyDB "J4" true).2.2 (by decide)⟩

/-- Counterexample to C9 as stated: a status value that is not among the
known statuses is not rejected with the missing-fields (`InvalidInput`)
error before the lookup — it reaches the transition check and is rejected
with the illegal-transition error, which reports the looked-up current
status. -/
theorem C9_counterexample :
    update_status dbPending ⟨some "K1", some "delivered"⟩ true =
      ⟨.illegalTransition "pending" (some "departed") "delivered", dbPending, []⟩ ∧
    (update_status dbPending ⟨some "K1", some "delivered"⟩ true).result ≠
      .missingFields := by
  decide

/-- C9 (amended): a request missing the journey key or the status field is
rejected with the invalid-input error before any lookup, with nothing
appended; a status value outside the known set is never appended either,
but it is rejected by the transition checks (an `IllegalTransition`-family
error) after the status lookup, not as invalid input. -/
theorem C9_input_validation (db : DB) (req : UpdateRequest) (b : Bool) (pid s : String) :
    (req.pickup_id = none ∨ req.status = none →
      update_status db req b = ⟨.missingFields, db, []⟩) ∧
    (s ∉ KNOWN_STATUSES →
      (update_status db ⟨some pid, some s⟩ b).db = db ∧
      (update_status db ⟨some pid, some s⟩ b).actions = [] ∧
      (update_status db ⟨some pid, some s⟩ b).result.isIllegal = true ∧
      (update_status db ⟨some pid, some s⟩ b).result ≠ .missingFields) := by
  constructor
  · intro hmiss
    rcases req with ⟨pid?, s?⟩
    match pid?, s?, hmiss with
    | none, none, _ => rfl
    | none, some _, _ => rfl
    | some _, none, _ => rfl
    | some _, some _, hmiss => rcases hmiss with h | h <;> cases h
  · intro hk
    have hcan : s ≠ "cancelled" := by
      intro h
      rw [h] at hk
      exact hk (by decide)
    have hguard : ∃ err, transitionGuard ((latestEntry db pid).map (fun e => e.status)) s =
        some err := by
      by_cases hf : ((latestEntry db pid).map (fun e => e.status)).getD "" ∈ FINAL_STATUSES
      · refine ⟨.finalized (((latestEntry db pid).map (fun e => e.status)).getD ""), ?_⟩
        unfold transitionGuard
        rw [if_neg hcan, if_pos hf]
      · have hflow : SEQUENTIAL_STATUS_FLOW ((latestEntry db pid).map (fun e => e.status)) ≠
            some s := by
          intro hfl
          rcases flow_some_val hfl with h | h | h | h | h <;> rw [h] at hk <;>
            exact hk (by decide)
        refine ⟨.illegalTransition (((latestEntry db pid).map (fun e => e.status)).getD "none")
          (SEQUENTIAL_STATUS_FLOW ((latestEntry db pid).map (fun e => e.status))) s, ?_⟩
        unfold transitionGuard
        rw [if_neg hcan, if_neg hf, if_pos hflow]
    obtain ⟨err, hg⟩ := hguard
    rw [update_status_guard_some b hg]
    refine ⟨rfl, rfl, transitionGuard_isIllegal hg, ?_⟩
    intro hbad
    have : err = .missingFields := hbad
    rw [this] at hg
    exact Bool.noConfusion (transitionGuard_isIllegal hg)

/-- Witness for C9 (amended): a missing status field is invalid input; an
unknown status value on a fresh key is rejected by the transition check. -/
theorem C9_witness :
    update_status emptyDB ⟨some "Q1", none⟩ true = ⟨.missingFields, emptyDB, []⟩ ∧
    ((update_status emptyDB ⟨some "Q1", some "teleported"⟩ true).db = emptyDB ∧
      (update_status emptyDB ⟨some "Q1", some "teleported"⟩ true).actions = [] ∧
      (update_status emptyDB ⟨some "Q1", some "teleported"⟩ true).result.isIllegal = true ∧
      (update_status emptyDB ⟨some "Q1", some "teleported"⟩ true).result ≠
        .missingFields) :=
  ⟨(C9_input_validation emptyDB ⟨some "Q1", none⟩ true "Q1" "x").1 (Or.inr rfl),
   (C9_input_validation emptyDB ⟨some "Q1", some "teleported"⟩ true "Q1"
      "teleported").2 (by decide)⟩

/-- Counterexample to C3 as stated: from current status `cancelled`,
submitting `cancelled` again is not rejected — `update_status` accepts it
and appends another `cancelled` event. -/
theorem C3_counterexample :
    (update_status dbCancelled ⟨some "K1", some "cancelled"⟩ true).result =
      .ok "cancelled" ∧
    (update_status dbCancelled ⟨some "K1", some "cancelled"⟩ true).db.rows.length =
      dbCancelled.rows.length + 1 ∧
    statusesFor (update_status dbCancelled ⟨some "K1", some "cancelled"⟩ true).db "K1" =
      ["pending", "cancelled", "cancelled"] := by
  decide

/-- C3 (amended): from `completed` every request is rejected with nothing
appended; from `cancelled` every request other than `cancelled` is
rejected with the finalized error and nothing appended, while `cancelled`
itself is re-accepted, appending a duplicate `cancelled` event; in every
case the current status never changes once terminal. -/
theorem C3_terminal_statuses (db : DB) (pid r : String) (b : Bool) (hwf : WF db) :
    ((latestEntry db pid).map (fun e => e.status) = some "completed" →
      (update_status db ⟨some pid, some r⟩ b).db = db ∧
      (update_status db ⟨some pid, some r⟩ b).actions = [] ∧
      (update_status db ⟨some pid, some r⟩ b).result.isOk = false) ∧
    ((latestEntry db pid).map (fun e => e.status) = some "cancelled" → r ≠ "cancelled" →
      update_status db ⟨some pid, some r⟩ b = ⟨.finalized "cancelled", db, []⟩) ∧
    ((latestEntry db pid).map (fun e => e.status) = some "cancelled" → r = "cancelled" →
      (update_status db ⟨some pid, some r⟩ b).result = .ok "cancelled" ∧
      ∃ j, j.status = "cancelled" ∧
        (update_status db ⟨some pid, some r⟩ b).db = commitRow db j) ∧
    (∀ s, (latestEntry db pid).map (fun e => e.status) = some s →
      (s = "completed" ∨ s = "cancelled") →
      (latestEntry (update_status db ⟨some pid, some r⟩ b).db pid).map
        (fun e => e.status) = some s) := by
  have hcompleted : (latestEntry db pid).map (fun e => e.status) = some "completed" →
      (update_status db ⟨some pid, some r⟩ b).db = db ∧
      (update_status db ⟨some pid, some r⟩ b).actions = [] ∧
      (update_status db ⟨some pid, some r⟩ b).result.isOk = false := by
    intro hp
    by_cases hr : r = "cancelled"
    · subst hr
      have hg : transitionGuard ((latestEntry db pid).map (fun e => e.status)) "cancelled" =
          some .cannotCancelCompleted := by
        rw [hp]
        exact guard_cancel_of_completed
      rw [update_status_guard_some b hg]
      exact ⟨rfl, rfl, rfl⟩
    · have hg : transitionGuard ((latestEntry db pid).map (fun e => e.status)) r =
          some (.finalized "completed") := by
        rw [hp]
        exact guard_final_noncancel (by decide) hr
      rw [update_status_guard_some b hg]
      exact ⟨rfl, rfl, rfl⟩
  have hcancel_other : (latestEntry db pid).map (fun e => e.status) = some "cancelled" →
      r ≠ "cancelled" →
      update_status db ⟨some pid, some r⟩ b = ⟨.finalized "cancelled", db, []⟩ := by
    intro hp hr
    have hg : transitionGuard ((latestEntry db pid).map (fun e => e.status)) r =
        some (.finalized "cancelled") := by
      rw [hp]
      exact guard_final_noncancel (by decide) hr
    exact update_status_guard_some b hg
  have hcancel_cancel : (latestEntry db pid).map (fun e => e.status) = some "cancelled" →
      r = "cancelled" →
      (update_status db ⟨some pid, some r⟩ b).result = .ok "cancelled" ∧
      ∃ j, j.status = "cancelled" ∧
        (update_status db ⟨some pid, some r⟩ b).db = commitRow db j := by
    intro hp hr
    subst hr
    have hg : transitionGuard ((latestEntry db pid).map (fun e => e.status)) "cancelled" =
        none := by
      rw [hp]; decide
    rcases update_status_cases db pid "cancelled" b with
      ⟨err, hg', hu⟩ | ⟨hg', hh, hu⟩ | ⟨ex, hg', hh, hu⟩
    · rw [hg] at hg'; cases hg'
    · rw [List.head?_eq_none_iff] at hh
      rw [(latestEntry_eq_none_iff db pid).2 hh] at hp
      cases hp
    · rw [hu]
      exact ⟨rfl, mkJourney pid ex "cancelled" db.now, rfl, rfl⟩
  refine ⟨hcompleted, hcancel_other, hcancel_cancel, ?_⟩
  intro s hp hterm
  rcases hterm with hterm | hterm
  · subst hterm
    rw [(hcompleted hp).1, hp]
  · subst hterm
    by_cases hr : r = "cancelled"
    · obtain ⟨-, j, hj, hdb⟩ := hcancel_cancel hp hr
      subst hr
      have hjpid : j.pickup_id = pid := by
        rcases update_status_cases db pid "cancelled" b with
          ⟨err, hg', hu⟩ | ⟨hg', hh, hu⟩ | ⟨ex, hg', hh, hu⟩
        · rw [update_status_guard_some b hg'] at hdb
          have : db.rows = db.rows ++ [j] := congrArg DB.rows hdb
          have hlen := congrArg List.length this
          simp at hlen
        · rw [hu] at hdb
          have : db.rows = db.rows ++ [j] := congrArg DB.rows hdb
          have hlen := congrArg List.length this
          simp at hlen
        · rw [hu] at hdb
          have hrows : (commitRow db (mkJourney pid ex "cancelled" db.now)).rows =
              (commitRow db j).rows := congrArg DB.rows hdb
          simp only [commitRow, List.append_cancel_left_eq] at hrows
          have : mkJourney pid ex "cancelled" db.now = j := by
            simpa using hrows
          rw [← this]
          rfl
      have hjts : j.timestamp = db.now := by
        rcases update_status_cases db pid "cancelled" b with
          ⟨err, hg', hu⟩ | ⟨hg', hh, hu⟩ | ⟨ex, hg', hh, hu⟩
        · rw [update_status_guard_some b hg'] at hdb
          have : db.rows = db.rows ++ [j] := congrArg DB.rows hdb
          have hlen := congrArg List.length this
          simp at hlen
        · rw [hu] at hdb
          have : db.rows = db.rows ++ [j] := congrArg DB.rows hdb
          have hlen := congrArg List.length this
          simp at hlen
        · rw [hu] at hdb
          have hrows : (commitRow db (mkJourney pid ex "cancelled" db.now)).rows =
              (commitRow db j).rows := congrArg DB.rows hdb
          simp only [commitRow, List.append_cancel_left_eq] at hrows
          have : mkJourney pid ex "cancelled" db.now = j := by
            simpa using hrows
          rw [← this]
          rfl
      rw [hdb, latestEntry_commit_self hjpid
        (fun x hx => hjts ▸ eventsFor_ts_le_now hwf pid x hx)]
      simp [hj]
    · rw [hcancel_other hp hr, hp]

/-- Witness for C3 (amended): at `dbCancelled`, a `picked` submission is
finalized-rejected and the current status stays `cancelled`. -/
theorem C3_witness :
    update_status dbCancelled ⟨some "K1", some "picked"⟩ true =
      ⟨.finalized "cancelled", dbCancelled, []⟩ ∧
    (latestEntry (update_status dbCancelled ⟨some "K1", some "picked"⟩ true).db "K1").map
      (fun e => e.status) = some "cancelled" :=
  ⟨(C3_terminal_statuses dbCancelled "K1" "picked" true
      (by constructor <;> decide)).2.1 (by decide) (by decide),
   (C3_terminal_statuses dbCancelled "K1" "picked" true
      (by constructor <;> decide)).2.2.2 "cancelled" (by decide) (Or.inr rfl)⟩

/-! ## Append characterizations of the handlers -/

/-- `update_status` either leaves the table alone or appends the one new
row for a key that already has a row. -/
theorem update_status_append (db : DB) (req : UpdateRequest) (b : Bool) :
    (update_status db req b).db = db ∨
    ∃ pid s ex, req = ⟨some pid, some s⟩ ∧
      transitionGuard ((latestEntry db pid).map (fun e => e.status)) s = none ∧
      (eventsFor db pid).head? = some ex ∧
      (update_status db req b).db = commitRow db (mkJourney pid ex s db.now) := by
  rcases req with ⟨pid?, s?⟩
  match pid?, s? with
  | none, none => exact Or.inl rfl
  | none, some s => exact Or.inl rfl
  | some pid, none => exact Or.inl rfl
  | some pid, some s =>
    rcases update_status_cases db pid s b with ⟨err, hg, hu⟩ | ⟨hg, hh, hu⟩ | ⟨ex, hg, hh, hu⟩
    · left; rw [hu]
    · left; rw [hu]
    · right
      exact ⟨pid, s, ex, rfl, hg, hh, by rw [hu]⟩

/-- `record_departure` either leaves the table alone or appends a
`departed` row copied from the latest `pending` row of an existing key. -/
theorem record_departure_append (db : DB) (pid? : Option String) :
    (record_departure db pid?).2 = db ∨
    ∃ pid lj, pid? = some pid ∧ latestEntry db pid = some lj ∧ lj.status = "pending" ∧
      (record_departure db pid?).2 = commitRow db (mkJourney pid lj "departed" db.now) := by
  match pid? with
  | none => exact Or.inl rfl
  | some pid =>
    by_cases hpid : pid = ""
    · left
      simp only [record_departure, if_pos hpid]
    · rcases hl : latestEntry db pid with _ | lj
      · left
        simp only [record_departure, if_neg hpid, hl]
      · by_cases hst : lj.status = "pending"
        · right
          refine ⟨pid, lj, rfl, hl, hst, ?_⟩
          simp only [record_departure, if_neg hpid, hl]
          rw [if_neg (by simpa using hst)]
        · left
          simp only [record_departure, if_neg hpid, hl]
          rw [if_pos (by simpa using hst)]

/-- `create_journey` either leaves the table alone or appends one
`pending` row under the generated pickup id. -/
theorem create_journey_append (db : DB) (dir : Directory) (em : String)
    (pp : Option String) (cid : Option Nat) (loc : String) (lat lng : Option Int)
    (fr : String) :
    (create_journey db dir em pp cid loc lat lng fr).2 = db ∨
    ∃ j, j.status = "pending" ∧ j.pickup_id = fr ∧ j.timestamp = db.now ∧
      (create_journey db dir em pp cid loc lat lng fr).2 = commitRow db j := by
  rcases hp : dir.parentByEmail em with _ | parentId
  · left
    simp only [create_journey, hp]
  · by_cases hm : pp.getD "" = "" ∨ cid.getD 0 = 0
    · left
      simp only [create_journey, hp, if_pos hm]
    · rcases hk : dir.kidParent (cid.getD 0) with _ | kp
      · left
        simp only [create_journey, hp, if_neg hm, hk]
      · by_cases hkp : kp ≠ parentId
        · left
          simp only [create_journey, hp, if_neg hm, hk, if_pos hkp]
        · by_cases hpe : ¬ dir.pickupPersonByUuid (pp.getD "")
          · left
            simp only [create_journey, hp, if_neg hm, hk, if_neg hkp, if_pos hpe]
          · right
            refine ⟨PickupJourney.mk fr (toString parentId) (toString (cid.getD 0))
              (pp.getD "") "pending" loc
              (match lat with | some v => if v = 0 then none else some v | none => none)
              (match lng with | some v => if v = 0 then none else some v | none => none)
              db.now, rfl, rfl, rfl, ?_⟩
            simp only [create_journey, hp, if_neg hm, hk, if_neg hkp, if_neg hpe]

/-- One appended row preserves "first event per key is `pending`" provided
the row is itself `pending` or its key already has a row. -/
theorem head_pending_step {db : DB} {j : PickupJourney}
    (hj : j.status = "pending" ∨ eventsFor db j.pickup_id ≠ [])
    (ih : ∀ pid e, (eventsFor db pid).head? = some e → e.status = "pending") :
    ∀ pid e, (eventsFor (commitRow db j) pid).head? = some e → e.status = "pending" := by
  intro pid e he
  rw [eventsFor_commitRow] at he
  rcases hl : eventsFor db pid with _ | ⟨x, xs⟩
  · rw [hl, List.nil_append] at he
    by_cases hp : j.pickup_id = pid
    · rw [if_pos hp] at he
      have hej : e = j := by
        simpa using he.symm
      subst hej
      rcases hj with hj | hj
      · exact hj
      · rw [hp] at hj
        exact absurd hl hj
    · rw [if_neg hp] at he
      cases he
  · rw [hl] at he
    have hex : e = x := by
      simpa using he.symm
    subst hex
    exact ih pid e (by rw [hl]; rfl)

/-- The per-key first-event invariant over every handler step. -/
theorem applyOp_append (db : DB) (op : Op) :
    applyOp db op = db ∨
    ∃ j, applyOp db op = commitRow db j ∧
      (j.status = "pending" ∨ eventsFor db j.pickup_id ≠ []) := by
  cases op with
  | update req b =>
    rcases update_status_append db req b with h | ⟨pid, s, ex, hreq, hg, hh, h⟩
    · exact Or.inl h
    · right
      refine ⟨mkJourney pid ex s db.now, h, Or.inr ?_⟩
      intro hemp
      rw [show (mkJourney pid ex s db.now).pickup_id = pid from rfl] at hemp
      rw [hemp] at hh
      cases hh
  | depart pid? =>
    rcases record_departure_append db pid? with h | ⟨pid, lj, hreq, hl, hst, h⟩
    · exact Or.inl h
    · right
      refine ⟨mkJourney pid lj "departed" db.now, h, Or.inr ?_⟩
      intro hemp
      rw [show (mkJourney pid lj "departed" db.now).pickup_id = pid from rfl] at hemp
      rw [(latestEntry_eq_none_iff db pid).2 hemp] at hl
      cases hl
  | create dir em pp cid loc lat lng fr =>
    rcases create_journey_append db dir em pp cid loc lat lng fr with
      h | ⟨j, hst, _, _, h⟩
    · exact Or.inl h
    · exact Or.inr ⟨j, h, Or.inl hst⟩

/-- In every reachable database, each key's first stored event (if any)
has status `pending`. -/
theorem reachable_first_pending {db : DB} (h : Reachable db) :
    ∀ pid e, (eventsFor db pid).head? = some e → e.status = "pending" := by
  induction h with
  | init =>
    intro pid e he
    cases he
  | step op _ ih =>
    rcases applyOp_append _ op with hd | ⟨j, hd, hj⟩
    · rw [hd]
      exact ih
    · rw [hd]
      exact head_pending_step hj ih

/-- Counterexample to C10 as stated: `update_status` on a key with no
events does not return a not-found error for every status — for `departed`
it returns the illegal-transition error (the lookup has already happened
and found no rows). -/
theorem C10_counterexample :
    update_status emptyDB ⟨some "J3", some "departed"⟩ true =
      ⟨.illegalTransition "none" (some "pending") "departed", emptyDB, []⟩ ∧
    (update_status emptyDB ⟨some "J3", some "departed"⟩ true).result ≠
      .journeyNotFound := by
  decide

/-- C10 (amended): every journey's first stored event has status
`pending`: `update_status` on a key with no events never appends, with the
not-found error exactly when (iff) the transition guard passes, and an
`IllegalTransition`-family error whenever the guard fires;
`record_departure` on a key with no events returns not-found;
`create_journey` only ever appends a `pending` row; and in every reachable
database each key's first stored event is `pending`. -/
theorem C10_first_event_pending :
    (∀ db pid s b, eventsFor db pid = [] →
      (update_status db ⟨some pid, some s⟩ b).db = db ∧
      (update_status db ⟨some pid, some s⟩ b).result.isOk = false ∧
      ((update_status db ⟨some pid, some s⟩ b).result = .journeyNotFound ↔
        transitionGuard none s = none) ∧
      (∀ err, transitionGuard none s = some err →
        (update_status db ⟨some pid, some s⟩ b).result = err ∧
          err.isIllegal = true)) ∧
    (∀ db pid, pid ≠ "" → eventsFor db pid = [] →
      record_departure db (some pid) = (.journeyNotFound, db)) ∧
    (∀ db dir em pp cid loc lat lng fr,
      (create_journey db dir em pp cid loc lat lng fr).2 = db ∨
      ∃ j, j.status = "pending" ∧
        (create_journey db dir em pp cid loc lat lng fr).2 = commitRow db j) ∧
    (∀ db, Reachable db → ∀ pid e, (eventsFor db pid).head? = some e →
      e.status = "pending") := by
  refine ⟨?_, ?_, ?_, fun db h => reachable_first_pending h⟩
  · intro db pid s b he
    have hl : latestEntry db pid = none := (latestEntry_eq_none_iff db pid).2 he
    rcases update_status_cases db pid s b with ⟨err, hg, hu⟩ | ⟨hg, hh, hu⟩ | ⟨ex, hg, hh, hu⟩
    · rw [hl] at hg
      simp only [Option.map_none'] at hg
      rw [hu]
      have hill : err.isIllegal = true := transitionGuard_isIllegal hg
      refine ⟨rfl, transitionGuard_isOk hg, ?_, ?_⟩
      · constructor
        · intro hnf
          have : err = .journeyNotFound := hnf
          rw [this] at hill
          cases hill
        · intro hgn
          rw [hgn] at hg
          cases hg
      · intro err' hg'
        rw [hg'] at hg
        exact ⟨Option.some.inj hg.symm ▸ rfl, (Option.some.inj hg) ▸ hill⟩
    · rw [hl] at hg
      simp only [Option.map_none'] at hg
      rw [hu]
      refine ⟨rfl, rfl, ⟨fun _ => hg, fun _ => rfl⟩, ?_⟩
      intro err' hg'
      rw [hg'] at hg
      cases hg
    · rw [he] at hh
      cases hh
  · intro db pid hpid he
    have hl : latestEntry db pid = none := (latestEntry_eq_none_iff db pid).2 he
    simp only [record_departure, if_neg hpid, hl]
  · intro db dir em pp cid loc lat lng fr
    rcases create_journey_append db dir em pp cid loc lat lng fr with h | ⟨j, hst, _, _, h⟩
    · exact Or.inl h
    · exact Or.inr ⟨j, hst, h⟩

/-- Witness for C10 (amended): on a fresh key, a `pending` submission is
rejected not-found (its guard passes), a `departed` submission is rejected
with an illegal-family error (its guard fires), and `record_departure` is
not-found. -/
theorem C10_witness :
    ((update_status emptyDB ⟨some "K7", some "pending"⟩ true).db = emptyDB ∧
      (update_status emptyDB ⟨some "K7", some "pending"⟩ true).result.isOk = false ∧
      ((update_status emptyDB ⟨some "K7", some "pending"⟩ true).result =
          .journeyNotFound ↔ transitionGuard none "pending" = none) ∧
      (∀ err, transitionGuard none "pending" = some err →
        (update_status emptyDB ⟨some "K7", some "pending"⟩ true).result = err ∧
          err.isIllegal = true)) ∧
    ((update_status emptyDB ⟨some "K8", some "departed"⟩ true).db = emptyDB ∧
      (update_status emptyDB ⟨some "K8", some "departed"⟩ true).result.isOk = false ∧
      ((update_status emptyDB ⟨some "K8", some "departed"⟩ true).result =
          .journeyNotFound ↔ transitionGuard none "departed" = none) ∧
      (∀ err, transitionGuard none "departed" = some err →
        (update_status emptyDB ⟨some "K8", some "departed"⟩ true).result = err ∧
          err.isIllegal = true)) ∧
    record_departure emptyDB (some "K7") = (.journeyNotFound, emptyDB) :=
  ⟨C10_first_event_pending.1 emptyDB "K7" "pending" true (by decide),
   C10_first_event_pending.1 emptyDB "K8" "departed" true (by decide),
   C10_first_event_pending.2.1 emptyDB "K7" (by decide) (by decide)⟩

/-! ## History invariant machinery -/

theorem statusesFor_commitRow (db : DB) (j : PickupJourney) (pid : String) :
    statusesFor (commitRow db j) pid =
      statusesFor db pid ++ (if j.pickup_id = pid then [j.status] else []) := by
  unfold statusesFor
  rw [eventsFor_commitRow, List.map_append]
  by_cases h : j.pickup_id = pid <;> simp [h]

theorem prefix_statusPath_cases {p : List String} (h : p <+: statusPath) :
    p = [] ∨ p = ["pending"] ∨ p = ["pending", "departed"] ∨
      p = ["pending", "departed", "picked"] ∨
      p = ["pending", "departed", "picked", "arrived"] ∨ p = statusPath := by
  have ht := List.prefix_iff_eq_take.mp h
  have hlen : p.length ≤ 5 := by
    have h5 := h.length_le
    simpa [statusPath] using h5
  have h6 : p.length = 0 ∨ p.length = 1 ∨ p.length = 2 ∨ p.length = 3 ∨
      p.length = 4 ∨ p.length = 5 := by omega
  rcases h6 with h6 | h6 | h6 | h6 | h6 | h6 <;> rw [h6] at ht
  · exact Or.inl (ht.trans rfl)
  · exact Or.inr (Or.inl (ht.trans rfl))
  · exact Or.inr (Or.inr (Or.inl (ht.trans rfl)))
  · exact Or.inr (Or.inr (Or.inr (Or.inl (ht.trans rfl))))
  · exact Or.inr (Or.inr (Or.inr (Or.inr (Or.inl (ht.trans rfl)))))
  · exact Or.inr (Or.inr (Or.inr (Or.inr (Or.inr (ht.trans rfl)))))

/-- The core preservation fact: appending a status that passes the guard
against the last recorded status keeps the history in code-valid shape. -/
theorem codeValid_append_guard {l : List String} {s : String}
    (hl : CodeValidHistory l) (hg : transitionGuard l.getLast? s = none)
    (hne : l ≠ []) : CodeValidHistory (l ++ [s]) := by
  obtain ⟨p, n, hp, hdisj, rfl⟩ := hl
  rcases (transitionGuard_eq_none_iff _ _).1 hg with ⟨hs, hlast⟩ | ⟨hs, hfin, hflow⟩
  · subst hs
    refine ⟨p, n + 1, hp, Or.inr ?_, ?_⟩
    · intro hpath
      subst hpath
      rcases hdisj with hn0 | hne_p
      · subst hn0
        exact hlast (by decide)
      · exact hne_p rfl
    · rw [List.replicate_succ', ← List.append_assoc]
  · have hn0 : n = 0 := by
      by_contra hn
      obtain ⟨m, rfl⟩ := Nat.exists_eq_succ_of_ne_zero hn
      have hlastc : (p ++ List.replicate (m + 1) "cancelled").getLast? =
          some "cancelled" := by
        rw [List.replicate_succ', ← List.append_assoc, List.getLast?_concat]
      rw [hlastc] at hfin
      exact hfin (by decide)
    subst hn0
    simp only [List.replicate_zero, List.append_nil] at hp hdisj hflow hfin hne ⊢
    rcases prefix_statusPath_cases hp with h0 | h0 | h0 | h0 | h0 | h0 <;> subst h0
    · exact absurd rfl hne
    · have hs2 : s = "departed" := (Option.some.inj hflow).symm
      subst hs2
      exact ⟨["pending", "departed"], 0,
        ⟨["picked", "arrived", "completed"], rfl⟩, Or.inl rfl, by simp⟩
    · have hs2 : s = "picked" := (Option.some.inj hflow).symm
      subst hs2
      exact ⟨["pending", "departed", "picked"], 0,
        ⟨["arrived", "completed"], rfl⟩, Or.inl rfl, by simp⟩
    · have hs2 : s = "arrived" := (Option.some.inj hflow).symm
      subst hs2
      exact ⟨["pending", "departed", "picked", "arrived"], 0,
        ⟨["completed"], rfl⟩, Or.inl rfl, by simp⟩
    · have hs2 : s = "completed" := (Option.some.inj hflow).symm
      subst hs2
      exact ⟨statusPath, 0, ⟨[], rfl⟩, Or.inl rfl, by simp [statusPath]⟩
    · exact absurd (by decide : ((statusPath.getLast?).getD "") ∈ FINAL_STATUSES) hfin

theorem statusesFor_ne_nil {db : DB} {pid : String}
    (h : eventsFor db pid ≠ []) : statusesFor db pid ≠ [] := by
  intro hemp
  unfold statusesFor at hemp
  rw [List.map_eq_nil_iff] at hemp
  exact h hemp

/-- `update_status` preserves well-formedness. -/
theorem WF_update (db : DB) (req : UpdateRequest) (b : Bool) (hwf : WF db) :
    WF (update_status db req b).db := by
  rcases update_status_append db req b with h | ⟨pid, s, ex, hreq, hg, hh, h⟩
  · rw [h]; exact hwf
  · rw [h]; exact WF_commitRow hwf rfl

/-- One `update_status` call preserves the code-level history shape. -/
theorem codeValid_update_step (db : DB) (hwf : WF db) (pid : String)
    (req : UpdateRequest) (b : Bool) (hv : CodeValidHistory (statusesFor db pid)) :
    CodeValidHistory (statusesFor (update_status db req b).db pid) := by
  rcases update_status_append db req b with h | ⟨pid', s, ex, hreq, hg, hh, h⟩
  · rw [h]; exact hv
  · rw [h, statusesFor_commitRow]
    by_cases hp : pid' = pid
    · subst hp
      rw [show (mkJourney pid' ex s db.now).pickup_id = pid' from rfl, if_pos rfl]
      have hnn : eventsFor db pid' ≠ [] := by
        intro hemp
        rw [hemp] at hh
        cases hh
      refine codeValid_append_guard hv ?_ (statusesFor_ne_nil hnn)
      rw [← currentStatus_eq_last hwf]
      exact hg
    · rw [show (mkJourney pid' ex s db.now).pickup_id = pid' from rfl, if_neg hp,
        List.append_nil]
      exact hv

/-- `record_departure` preserves well-formedness. -/
theorem WF_depart (db : DB) (pid? : Option String) (hwf : WF db) :
    WF (record_departure db pid?).2 := by
  rcases record_departure_append db pid? with h | ⟨pid, lj, hreq, hl, hst, h⟩
  · rw [h]; exact hwf
  · rw [h]; exact WF_commitRow hwf rfl

/-- One `record_departure` call preserves the code-level history shape. -/
theorem codeValid_depart_step (db : DB) (hwf : WF db) (pid : String)
    (pid? : Option String) (hv : CodeValidHistory (statusesFor db pid)) :
    CodeValidHistory (statusesFor (record_departure db pid?).2 pid) := by
  rcases record_departure_append db pid? with h | ⟨pid', lj, hreq, hl, hst, h⟩
  · rw [h]; exact hv
  · rw [h, statusesFor_commitRow]
    by_cases hp : pid' = pid
    · subst hp
      rw [show (mkJourney pid' lj "departed" db.now).pickup_id = pid' from rfl, if_pos rfl,
        show (mkJourney pid' lj "departed" db.now).status = "departed" from rfl]
      have hnn : eventsFor db pid' ≠ [] := by
        intro hemp
        rw [(latestEntry_eq_none_iff db pid').2 hemp] at hl
        cases hl
      refine codeValid_append_guard hv ?_ (statusesFor_ne_nil hnn)
      rw [← currentStatus_eq_last hwf, hl]
      rw [show (some lj).map (fun e => e.status) = some lj.status from rfl, hst]
      decide
    · rw [show (mkJourney pid' lj "departed" db.now).pickup_id = pid' from rfl, if_neg hp,
        List.append_nil]
      exact hv

/-- `create_journey` preserves well-formedness. -/
theorem WF_create (db : DB) (dir : Directory) (em : String) (pp : Option String)
    (cid : Option Nat) (loc : String) (lat lng : Option Int) (fr : String)
    (hwf : WF db) : WF (create_journey db dir em pp cid loc lat lng fr).2 := by
  rcases create_journey_append db dir em pp cid loc lat lng fr with
    h | ⟨j, hst, hjpid, hts, h⟩
  · rw [h]; exact hwf
  · rw [h]; exact WF_commitRow hwf hts

/-- One `create_journey` call with a fresh generated id preserves the
code-level history shape of every key. -/
theorem codeValid_create_step (db : DB) (pid : String) (dir : Directory) (em : String)
    (pp : Option String) (cid : Option Nat) (loc : String) (lat lng : Option Int)
    (fr : String) (hfresh : eventsFor db fr = [])
    (hv : CodeValidHistory (statusesFor db pid)) :
    CodeValidHistory (statusesFor (create_journey db dir em pp cid loc lat lng fr).2 pid) := by
  rcases create_journey_append db dir em pp cid loc lat lng fr with
    h | ⟨j, hst, hjpid, hts, h⟩
  · rw [h]; exact hv
  · rw [h, statusesFor_commitRow]
    by_cases hp : fr = pid
    · have hjp : j.pickup_id = pid := hjpid.trans hp
      rw [if_pos hjp]
      have hemp : statusesFor db pid = [] := by
        unfold statusesFor
        rw [← hp, hfresh]
        rfl
      rw [hemp, List.nil_append, hst]
      exact ⟨["pending"], 0, ⟨["departed", "picked", "arrived", "completed"], rfl⟩,
        Or.inl rfl, rfl⟩
    · rw [if_neg (fun hc => hp (hjpid.symm.trans hc)), List.append_nil]
      exact hv

/-- A sequence of `update_status` requests, applied in order. -/
def applyUpdates (db : DB) (reqs : List (UpdateRequest × Bool)) : DB :=
  reqs.foldl (fun d rb => (update_status d rb.1 rb.2).db) db

theorem codeValid_updates (reqs : List (UpdateRequest × Bool)) :
    ∀ db, WF db → ∀ pid, CodeValidHistory (statusesFor db pid) →
      WF (applyUpdates db reqs) ∧
        CodeValidHistory (statusesFor (applyUpdates db reqs) pid) := by
  induction reqs with
  | nil => exact fun db hwf pid hv => ⟨hwf, hv⟩
  | cons rb rest ih =>
    intro db hwf pid hv
    exact ih _ (WF_update db rb.1 rb.2 hwf) pid
      (codeValid_update_step db hwf pid rb.1 rb.2 hv)

/-- Counterexample to C8 as stated: starting from an empty table, one
`create_journey` followed by two accepted `cancelled` submissions stores
the status sequence `pending, cancelled, cancelled`, which is not a prefix
of the canonical path with a single final `cancelled`. -/
theorem C8_counterexample :
    statusesFor dbTwiceCancelled "K1" = ["pending", "cancelled", "cancelled"] ∧
    ¬ SpecValidHistory ["pending", "cancelled", "cancelled"] := by
  constructor
  · decide
  · rintro ⟨p, hp, hcase | ⟨hcase, hne⟩⟩
    · have hmem : "cancelled" ∈ p := by
        rw [← hcase]
        decide
      exact absurd (hp.subset hmem) (by decide)
    · have hdrop := congrArg List.dropLast hcase
      rw [List.dropLast_concat] at hdrop
      have hmem : "cancelled" ∈ p := by
        rw [← hdrop]
        decide
      exact absurd (hp.subset hmem) (by decide)

/-- C8 (amended): in a well-formed store, if a key's recorded statuses are
a prefix of the five-stage path followed by zero or more trailing
`cancelled` events (the first of which only follows a prefix not ending in
`completed`), then that shape is preserved by any sequence of
`update_status` calls, by `record_departure`, and by `create_journey`
whenever its generated pickup id is fresh. -/
theorem C8_history_invariant :
    (∀ db pid reqs, WF db → CodeValidHistory (statusesFor db pid) →
      CodeValidHistory (statusesFor (applyUpdates db reqs) pid)) ∧
    (∀ db pid pid?, WF db → CodeValidHistory (statusesFor db pid) →
      CodeValidHistory (statusesFor (record_departure db pid?).2 pid)) ∧
    (∀ db pid dir em pp cid loc lat lng fr, eventsFor db fr = [] →
      CodeValidHistory (statusesFor db pid) →
      CodeValidHistory (statusesFor (create_journey db dir em pp cid loc lat lng fr).2 pid)) :=
  ⟨fun db pid reqs hwf hv => (codeValid_updates reqs db hwf pid hv).2,
   fun db pid pid? hwf hv => codeValid_depart_step db hwf pid pid? hv,
   fun db pid dir em pp cid loc lat lng fr hfresh hv =>
     codeValid_create_step db pid dir em pp cid loc lat lng fr hfresh hv⟩

/-- Witness for C8 (amended): a key at `pending` stays code-valid after a
`departed` submission followed by a `cancelled` one. -/
theorem C8_witness :
    CodeValidHistory (statusesFor (applyUpdates dbPending
      [(⟨some "K1", some "departed"⟩, true), (⟨some "K1", some "cancelled"⟩, true)])
      "K1") :=
  C8_history_invariant.1 dbPending "K1"
    [(⟨some "K1", some "departed"⟩, true), (⟨some "K1", some "cancelled"⟩, true)]
    ⟨by decide, by decide⟩
    ⟨["pending"], 0, ⟨["departed", "picked", "arrived", "completed"], rfl⟩,
      Or.inl rfl, rfl⟩

end KidMate
